import Mathlib

/-!
Shallow embedding of the mail-merge campaign runner (`src/main.py`) for
verification of its specification claims.

Conventions of the embedding:
* Python strings are modelled as `Str := List Char`; a Lean string literal
  `"x"` enters the model through `String.data`.
* A spreadsheet cell is `Cell := Option Str`: `none` models a pandas
  `NaN` (empty cell), `some s` models the string value `s`.  `cellStr`
  models Python's `str(...)` on a cell (`str(nan) = "nan"`), `isna`
  models `pd.isna`.
* A recipient row (`row_data` in the source, one `pandas` row viewed as a
  name-to-value mapping) is an association list `Row := List (Str × Cell)`.
* The current wall clock enters as an explicit `Env` value carrying the
  two formatted strings the source derives from `datetime.now()`.
* The SMTP transport is an oracle `Nat → ChannelOutcome` giving, per row
  index, whether the protocol exchange raises an exception; opening an
  SMTP session is recorded as a Delivery Channel invocation.
* Console printing, file I/O (template loading, attachment reading,
  Excel persistence) have no effect on the campaign state and are not
  modelled; the persisted table is the driver's final row list.
-/

namespace MailGun

abbrev Str := List Char

/-- Cell of the spreadsheet: `none` is a pandas `NaN`. -/
abbrev Cell := Option Str

/-- Python `str(...)` applied to a cell value: `str(nan)` is the literal
string `"nan"`. -/
def cellStr : Cell → Str
  | none => "nan".data
  | some s => s

/-- Model of `pd.isna` on a cell. -/
def isna : Cell → Bool
  | none => true
  | some _ => false

/-- Python's `str.strip()`: drop leading and trailing whitespace. -/
def stripStr (s : Str) : Str :=
  ((s.dropWhile Char.isWhitespace).reverse.dropWhile Char.isWhitespace).reverse

/-- Python's `str.split(',')`: split on every comma; between `k` commas
there are `k+1` (possibly empty) pieces. -/
def splitComma : Str → List Str
  | [] => [[]]
  | c :: rest =>
    if c = ',' then [] :: splitComma rest
    else
      match splitComma rest with
      | [] => [[c]]
      | p :: ps => (c :: p) :: ps

/-- Boolean prefix test used by the replacement scanner. -/
def startsWithStr : Str → Str → Bool
  | [], _ => true
  | _ :: _, [] => false
  | a :: pat, b :: s => a = b && startsWithStr pat s

/-- Fuelled core of Python's `str.replace(old, new)`: leftmost,
non-overlapping replacement of every occurrence.  The fuel is an upper
bound on the number of scanning steps; `replaceStr` supplies the length
of the subject string, which suffices for every non-empty `old`. -/
def replaceFuel (old new : Str) : Nat → Str → Str
  | 0, s => s
  | _ + 1, [] => []
  | fuel + 1, c :: rest =>
    if startsWithStr old (c :: rest) then
      new ++ replaceFuel old new fuel ((c :: rest).drop old.length)
    else
      c :: replaceFuel old new fuel rest

/-- Python's `str.replace(old, new)` on the model strings. -/
def replaceStr (s old new : Str) : Str :=
  replaceFuel old new s.length s

/-- Python's `str.upper()` (ASCII view, as the source's keys are ASCII). -/
def upperStr (s : Str) : Str := s.map Char.toUpper

/-- Python's `.replace(' ', '_')` on a single-character pattern, as used
for placeholder keys. -/
def underscoreSpaces (s : Str) : Str :=
  s.map fun c => if c = ' ' then '_' else c

/-- One recipient row: the name-to-cell mapping `row_data`. -/
abbrev Row := List (Str × Cell)

/-- First binding of a key in a row, modelling a `pandas`/`dict` lookup
(column names are unique in a DataFrame). -/
def rowFind : Row → Str → Option Cell
  | [], _ => none
  | (k, v) :: rest, key => if k = key then some v else rowFind rest key

/-- Python `row_data.get(key, default)`. -/
def rowGetD (row : Row) (key : Str) (dflt : Cell) : Cell :=
  (rowFind row key).getD dflt

/-- Model of `df.at[index, key] = v`: overwrite the cell of column `key`
of one row (appending when the column is not present yet). -/
def setCell : Row → Str → Cell → Row
  | [], key, v => [(key, v)]
  | (k, c) :: rest, key, v =>
    if k = key then (key, v) :: rest else (k, c) :: setCell rest key v

/-! Default column names of `EmailConfig.COLUMNS` in `src/main.py`. -/

def colName : Str := "First Name".data
def colTo : Str := "To".data
def colCC : Str := "CC".data
def colBCC : Str := "BCC".data
def colStatus : Str := "Email Status".data
def colTimestamp : Str := "Sent Timestamp".data

/-! ## Address validation (`validate_email`, `parse_email_list`) -/

/-- Character class `[a-zA-Z0-9._%+-]` of the local part. -/
def isLocalChar (c : Char) : Bool :=
  c.isAlpha || c.isDigit || c = '.' || c = '_' || c = '%' || c = '+' || c = '-'

/-- Character class `[a-zA-Z0-9.-]` of the domain part. -/
def isDomainChar (c : Char) : Bool :=
  c.isAlpha || c.isDigit || c = '.' || c = '-'

/-- Matcher for the domain part of the pattern, `[a-zA-Z0-9.-]+\.[a-zA-Z]{2,}`
anchored at the end: the maximal alphabetic suffix must have length at
least two and be preceded by a dot, and what stands before that dot must
be a non-empty run of domain characters. -/
def domainMatch (d : Str) : Bool :=
  match d.reverse.dropWhile Char.isAlpha with
  | b :: pR =>
    b = '.' && decide (2 ≤ (d.reverse.takeWhile Char.isAlpha).length) && !pR.isEmpty &&
      pR.all isDomainChar
  | [] => false

/-- Matcher for the full pattern `^[a-zA-Z0-9._%+-]+@[a-zA-Z0-9.-]+\.[a-zA-Z]{2,}$`
of `validate_email` in `src/main.py` (the local-part class does not
contain `@`, so the run of local characters must be non-empty and be
followed by the first `@`). -/
def emailMatch (s : Str) : Bool :=
  match s.dropWhile isLocalChar with
  | a :: d => a = '@' && !(s.takeWhile isLocalChar).isEmpty && domainMatch d
  | [] => false

/-- `validate_email(email)`: match the pattern against `email.strip()`. -/
def validate_email (email : Str) : Bool :=
  emailMatch (stripStr email)

/-- Loop body of `parse_email_list`: partition the already-stripped
entries into the valid and the invalid ones, in order (empty entries go
to neither list, invalid ones are only warned about). -/
def parseLoop : List Str → List Str × List Str
  | [] => ([], [])
  | e :: rest =>
    let r := parseLoop rest
    if !e.isEmpty && validate_email e then (e :: r.1, r.2)
    else if !e.isEmpty then (r.1, e :: r.2)
    else r

/-- `parse_email_list(email_string)`: `NaN` or whitespace-only input gives
`[]`; otherwise split on commas, strip each entry, and keep the valid
ones in order. -/
def parse_email_list : Cell → List Str
  | none => []
  | some s =>
    if stripStr s = [] then []
    else (parseLoop ((splitComma s).map stripStr)).1

/-- The e-mail shape of the specification, read declaratively off the
regular expression `^[a-zA-Z0-9._%+-]+@[a-zA-Z0-9.-]+\.[a-zA-Z]{2,}$`:
a non-empty run of local-part characters, an `@`, a non-empty run of
domain characters, a dot, and an alphabetic top-level domain of length
at least two.  This is the spec-facing reading, to be compared with the
executable `validate_email` translated from the source. -/
def specEmailShape (s : Str) : Prop :=
  ∃ l p t : Str,
    s = l ++ '@' :: (p ++ '.' :: t) ∧
    l ≠ [] ∧ (∀ c ∈ l, isLocalChar c = true) ∧
    p ≠ [] ∧ (∀ c ∈ p, isDomainChar c = true) ∧
    2 ≤ t.length ∧ (∀ c ∈ t, c.isAlpha = true)

/-! ## Template engine (`personalize_content`) -/

/-- Formatted wall-clock strings the source derives from `datetime.now()`:
`dateStr` is `strftime("%B %d, %Y")` (used for the DATE placeholder),
`timestampStr` is `strftime("%Y-%m-%d %H:%M:%S")` (used for the sent
timestamp). -/
structure Env where
  dateStr : Str
  timestampStr : Str
deriving DecidableEq

/-- Value of `str(row_data.get(key, ''))`: the stringified cell, or the
empty string when the column is absent. -/
def getRawStr (row : Row) (key : Str) : Str :=
  match rowFind row key with
  | some c => cellStr c
  | none => "".data

/-- Placeholder key built from a column name:
`'\x7b\x7b' + key.upper().replace(' ', '_') + '\x7d\x7d'`. -/
def mkPlaceholder (key : Str) : Str :=
  "\x7b\x7b".data ++ underscoreSpaces (upperStr key) ++ "\x7d\x7d".data

/-- The four standard replacements of `personalize_content`, in insertion
order.  Note that NAME, COMPANY and EMAIL stringify the raw cell without
a `NaN` guard. -/
def standardReplacements (env : Env) (row : Row) : List (Str × Str) :=
  [("\x7b\x7bNAME\x7d\x7d".data, getRawStr row colName),
   ("\x7b\x7bDATE\x7d\x7d".data, env.dateStr),
   ("\x7b\x7bCOMPANY\x7d\x7d".data, getRawStr row "Company".data),
   ("\x7b\x7bEMAIL\x7d\x7d".data, getRawStr row colTo)]

/-- Value stored for a non-standard column placeholder:
`str(value) if not pd.isna(value) else ''`. -/
def cellValueOrEmpty : Cell → Str
  | none => "".data
  | some s => s

/-- Loop `for key, value in row_data.items()` of `personalize_content`:
append a replacement for every column whose placeholder key is not
already present. -/
def addExtras : Row → List (Str × Str) → List (Str × Str)
  | [], acc => acc
  | (k, v) :: rest, acc =>
    let ph := mkPlaceholder k
    if acc.any (fun p => p.1 = ph) then addExtras rest acc
    else addExtras rest (acc ++ [(ph, cellValueOrEmpty v)])

/-- `personalize_content(template, row_data)`: apply every replacement of
the insertion-ordered dictionary with `str.replace`, in order. -/
def personalize_content (env : Env) (template : Str) (row : Row) : Str :=
  (addExtras row (standardReplacements env row)).foldl
    (fun content p => replaceStr content p.1 p.2) template

/-! ## Send operation (`send_personalized_email`) -/

/-- Result a driver iteration sees from `send_personalized_email`: the
Python function returns either a pair `(success, status)` or a triple
`(success, status, timestamp)`; the driver normalises a pair to an empty
timestamp, which this structure does directly. -/
structure SendResult where
  success : Bool
  status : Str
  timestamp : Str
deriving DecidableEq

/-- Behaviour of the SMTP exchange once a session is opened: `ok` models
a clean `sendmail`/`quit`, `err m` models an exception whose text is `m`. -/
inductive ChannelOutcome where
  | ok : ChannelOutcome
  | err : Str → ChannelOutcome

/-- `send_personalized_email(row_data, config, template, test_mode)`.
The returned pair is the normalised result tuple together with the flag
of whether an SMTP session was opened (a Delivery Channel invocation).
Message assembly (MIME headers, subject rendering, attachments) affects
only the transmitted bytes, never the returned tuple, and is omitted. -/
def send_personalized_email (env : Env) (row : Row) (testMode : Bool)
    (outcome : ChannelOutcome) : SendResult × Bool :=
  let to_emails := parse_email_list (rowGetD row colTo (some "".data))
  let _cc_emails := parse_email_list (rowGetD row colCC (some "".data))
  let _bcc_emails := parse_email_list (rowGetD row colBCC (some "".data))
  if to_emails.isEmpty then
    (⟨false, "No valid TO email addresses".data, "".data⟩, false)
  else if testMode then
    (⟨true, "Test mode - not sent".data, "".data⟩, false)
  else
    match outcome with
    | .ok => (⟨true, "Sent successfully".data, env.timestampStr⟩, true)
    | .err m => (⟨false, "Failed: ".data ++ m, "".data⟩, true)

/-! ## Campaign driver (the row loop of `main`) -/

/-- Skip test of the driver:
`not pd.isna(current_status) and str(current_status).strip()`. -/
def alreadySent (row : Row) : Bool :=
  let st := rowGetD row colStatus (some "".data)
  !(isna st) && !(stripStr (cellStr st)).isEmpty

/-- Status/timestamp write-back of the driver: the status cell always
receives the status message; the timestamp cell is written only when the
returned timestamp is non-empty (`if timestamp:`). -/
def applyResult (row : Row) (res : SendResult) : Row :=
  let r1 := setCell row colStatus (some res.status)
  if res.timestamp.isEmpty then r1 else setCell r1 colTimestamp (some res.timestamp)

/-- Conditional counter increment (`successful_emails += 1` under its
guard, and likewise for `failed_emails`). -/
def bump (b : Bool) (n : Nat) : Nat := if b then n + 1 else n

/-- Aggregate outcome of a run: the final table, the three counters of
the driver, and the indices of the rows for which an SMTP session was
opened. -/
structure RunOut where
  rows : List Row
  sent : Nat
  succ : Nat
  fail : Nat
  calls : List Nat
deriving DecidableEq

/-- The `for index, row in df.iterrows()` loop of `main`, from index
`idx` on, with the current values of `emails_sent_this_run`,
`successful_emails` and `failed_emails`.  A row with a non-empty trimmed
status is skipped (`continue`); reaching the per-run cap breaks out of
the whole loop; otherwise the row is sent and its cells updated. -/
def runAux (env : Env) (maxPerRun : Nat) (testMode : Bool)
    (oracle : Nat → ChannelOutcome) :
    List Row → Nat → Nat → Nat → Nat → RunOut
  | [], _, sent, succ, fail => ⟨[], sent, succ, fail, []⟩
  | row :: rest, idx, sent, succ, fail =>
    if alreadySent row then
      let o := runAux env maxPerRun testMode oracle rest (idx + 1) sent succ fail
      ⟨row :: o.rows, o.sent, o.succ, o.fail, o.calls⟩
    else if maxPerRun ≤ sent then
      ⟨row :: rest, sent, succ, fail, []⟩
    else
      let ri := send_personalized_email env row testMode (oracle idx)
      let o := runAux env maxPerRun testMode oracle rest (idx + 1) (sent + 1)
        (bump ri.1.success succ) (bump (!ri.1.success) fail)
      ⟨applyResult row ri.1 :: o.rows, o.sent, o.succ, o.fail,
       if ri.2 then idx :: o.calls else o.calls⟩

/-- One whole campaign over the loaded table. -/
def runCampaign (env : Env) (maxPerRun : Nat) (testMode : Bool)
    (oracle : Nat → ChannelOutcome) (rows : List Row) : RunOut :=
  runAux env maxPerRun testMode oracle rows 0 0 0 0

/-- The send branch of one loop iteration, as a named value (used to
state unfolding equations of `runAux`). -/
def sendStep (env : Env) (maxPerRun : Nat) (testMode : Bool)
    (oracle : Nat → ChannelOutcome) (row : Row) (rest : List Row)
    (idx sent succ fail : Nat) : RunOut :=
  let ri := send_personalized_email env row testMode (oracle idx)
  let o := runAux env maxPerRun testMode oracle rest (idx + 1) (sent + 1)
    (bump ri.1.success succ) (bump (!ri.1.success) fail)
  ⟨applyResult row ri.1 :: o.rows, o.sent, o.succ, o.fail,
   if ri.2 then idx :: o.calls else o.calls⟩

/-! ## Concrete fixtures for witnesses and counterexamples -/

/-- Fixed wall clock used by concrete runs. -/
def envW : Env := ⟨"October 12, 2025".data, "2025-10-12 10:00:00".data⟩

/-- Transport that always delivers. -/
def oracleOk : Nat → ChannelOutcome := fun _ => ChannelOutcome.ok

/-- Pending row with one valid recipient. -/
def rowPendingA : Row :=
  [(colTo, some "a@x.com".data), (colStatus, some "".data), (colTimestamp, some "".data)]

/-- Second pending row with one valid recipient. -/
def rowPendingB : Row :=
  [(colTo, some "b@y.org".data), (colStatus, some "".data), (colTimestamp, some "".data)]

/-- Row already marked sent by an earlier run. -/
def rowDone : Row :=
  [(colTo, some "c@z.net".data), (colStatus, some "Sent successfully".data),
   (colTimestamp, some "2025-01-01 00:00:00".data)]

/-- Pending row without any valid recipient address. -/
def rowNoTo : Row :=
  [(colTo, some "not-an-email".data), (colStatus, some "".data), (colTimestamp, some "".data)]

/-! ## Helper lemmas about the driver -/

/-- Unfolding of the loop on the exhausted suffix. -/
theorem runAux_nil (env : Env) (mpr : Nat) (tm : Bool) (oracle : Nat → ChannelOutcome)
    (idx sent succ fail : Nat) :
    runAux env mpr tm oracle [] idx sent succ fail = ⟨[], sent, succ, fail, []⟩ := rfl

/-- Unfolding of one iteration on a row whose skip test holds. -/
theorem runAux_cons_skip (env : Env) (mpr : Nat) (tm : Bool) (oracle : Nat → ChannelOutcome)
    (row : Row) (rest : List Row) (idx sent succ fail : Nat)
    (h : alreadySent row = true) :
    runAux env mpr tm oracle (row :: rest) idx sent succ fail =
      ⟨row :: (runAux env mpr tm oracle rest (idx + 1) sent succ fail).rows,
       (runAux env mpr tm oracle rest (idx + 1) sent succ fail).sent,
       (runAux env mpr tm oracle rest (idx + 1) sent succ fail).succ,
       (runAux env mpr tm oracle rest (idx + 1) sent succ fail).fail,
       (runAux env mpr tm oracle rest (idx + 1) sent succ fail).calls⟩ := by
  simp [runAux, h]

/-- Unfolding of the iteration that reaches the per-run cap: the whole
remaining suffix is returned untouched. -/
theorem runAux_cons_break (env : Env) (mpr : Nat) (tm : Bool) (oracle : Nat → ChannelOutcome)
    (row : Row) (rest : List Row) (idx sent succ fail : Nat)
    (h : alreadySent row = false) (hc : mpr ≤ sent) :
    runAux env mpr tm oracle (row :: rest) idx sent succ fail =
      ⟨row :: rest, sent, succ, fail, []⟩ := by
  simp [runAux, h, hc]

/-- Unfolding of one iteration that processes its row. -/
theorem runAux_cons_send (env : Env) (mpr : Nat) (tm : Bool) (oracle : Nat → ChannelOutcome)
    (row : Row) (rest : List Row) (idx sent succ fail : Nat)
    (h : alreadySent row = false) (hc : sent < mpr) :
    runAux env mpr tm oracle (row :: rest) idx sent succ fail =
      sendStep env mpr tm oracle row rest idx sent succ fail := by
  simp [runAux, sendStep, h, Nat.not_le.mpr hc]

/-- Every recorded Delivery Channel invocation of a loop suffix starting
at index `idx` concerns a row index at least `idx`. -/
theorem runAux_calls_lb (env : Env) (mpr : Nat) (tm : Bool) (oracle : Nat → ChannelOutcome) :
    ∀ (rows : List Row) (idx sent succ fail x : Nat),
      x ∈ (runAux env mpr tm oracle rows idx sent succ fail).calls → idx ≤ x := by
  intro rows
  induction rows with
  | nil =>
    intro idx sent succ fail x h
    simp [runAux_nil] at h
  | cons row rest ih =>
    intro idx sent succ fail x h
    cases h1 : alreadySent row with
    | true =>
      rw [runAux_cons_skip env mpr tm oracle row rest idx sent succ fail h1] at h
      exact Nat.le_of_succ_le (ih _ _ _ _ _ h)
    | false =>
      by_cases h2 : sent < mpr
      · rw [runAux_cons_send env mpr tm oracle row rest idx sent succ fail h1 h2] at h
        dsimp only [sendStep] at h
        split at h
        · rcases List.mem_cons.mp h with rfl | h'
          · exact le_rfl
          · exact Nat.le_of_succ_le (ih _ _ _ _ _ h')
        · exact Nat.le_of_succ_le (ih _ _ _ _ _ h)
      · rw [runAux_cons_break env mpr tm oracle row rest idx sent succ fail h1
          (Nat.not_lt.mp h2)] at h
        simp at h

/-- A row whose skip test holds at load time is returned unchanged at its
position, and its index never appears among the Delivery Channel
invocations, whatever the counters at loop entry were. -/
theorem runAux_preserves_skipped (env : Env) (mpr : Nat) (tm : Bool)
    (oracle : Nat → ChannelOutcome) :
    ∀ (rows : List Row) (idx sent succ fail i : Nat) (row : Row),
      rows.get? i = some row → alreadySent row = true →
      (runAux env mpr tm oracle rows idx sent succ fail).rows.get? i = some row ∧
      (idx + i) ∉ (runAux env mpr tm oracle rows idx sent succ fail).calls := by
  intro rows
  induction rows with
  | nil =>
    intro idx sent succ fail i row hget _hs
    simp [List.get?_nil] at hget
  | cons r rest ih =>
    intro idx sent succ fail i row hget hs
    cases h1 : alreadySent r with
    | true =>
      rw [runAux_cons_skip env mpr tm oracle r rest idx sent succ fail h1]
      cases i with
      | zero =>
        obtain rfl : r = row := by simpa using hget
        refine ⟨by simp, ?_⟩
        intro hmem
        have := runAux_calls_lb env mpr tm oracle rest (idx + 1) sent succ fail _ hmem
        omega
      | succ j =>
        have hget' : rest.get? j = some row := by simpa using hget
        have hrec := ih (idx + 1) sent succ fail j row hget' hs
        refine ⟨by simpa using hrec.1, ?_⟩
        intro hmem
        have heq : idx + (j + 1) = (idx + 1) + j := by omega
        exact hrec.2 (by simpa [heq] using hmem)
    | false =>
      by_cases h2 : sent < mpr
      · rw [runAux_cons_send env mpr tm oracle r rest idx sent succ fail h1 h2]
        dsimp only [sendStep]
        cases i with
        | zero =>
          obtain rfl : r = row := by simpa using hget
          rw [hs] at h1
          exact absurd h1 (by simp)
        | succ j =>
          have hget' : rest.get? j = some row := by simpa using hget
          have hrec := ih (idx + 1) (sent + 1)
            (bump (send_personalized_email env r tm (oracle idx)).1.success succ)
            (bump (!(send_personalized_email env r tm (oracle idx)).1.success) fail)
            j row hget' hs
          refine ⟨by simpa using hrec.1, ?_⟩
          intro hmem
          have heq : idx + (j + 1) = (idx + 1) + j := by omega
          split at hmem
          · rcases List.mem_cons.mp hmem with hx | hx
            · omega
            · exact hrec.2 (by simpa [heq] using hx)
          · exact hrec.2 (by simpa [heq] using hmem)
      · rw [runAux_cons_break env mpr tm oracle r rest idx sent succ fail h1 (Nat.not_lt.mp h2)]
        exact ⟨by simpa using hget, by simp⟩

/-- Cap bound for a loop suffix: it records at most `mpr - sent` further
Delivery Channel invocations. -/
theorem runAux_calls_length (env : Env) (mpr : Nat) (tm : Bool)
    (oracle : Nat → ChannelOutcome) :
    ∀ (rows : List Row) (idx sent succ fail : Nat),
      (runAux env mpr tm oracle rows idx sent succ fail).calls.length ≤ mpr - sent := by
  intro rows
  induction rows with
  | nil =>
    intro idx sent succ fail
    simp [runAux_nil]
  | cons row rest ih =>
    intro idx sent succ fail
    cases h1 : alreadySent row with
    | true =>
      rw [runAux_cons_skip env mpr tm oracle row rest idx sent succ fail h1]
      exact ih (idx + 1) sent succ fail
    | false =>
      by_cases h2 : sent < mpr
      · rw [runAux_cons_send env mpr tm oracle row rest idx sent succ fail h1 h2]
        dsimp only [sendStep]
        have hr := ih (idx + 1) (sent + 1)
          (bump (send_personalized_email env row tm (oracle idx)).1.success succ)
          (bump (!(send_personalized_email env row tm (oracle idx)).1.success) fail)
        split
        · simp only [List.length_cons]
          omega
        · omega
      · rw [runAux_cons_break env mpr tm oracle row rest idx sent succ fail h1 (Nat.not_lt.mp h2)]
        simp
/-- Writing a cell makes it the value the next lookup of that column sees. -/
theorem rowFind_setCell_self : ∀ (row : Row) (k : Str) (v : Cell),
    rowFind (setCell row k v) k = some v := by
  intro row k v
  induction row with
  | nil => simp [setCell, rowFind]
  | cons p rest ih =>
    by_cases h : p.1 = k
    · simp [setCell, rowFind, h]
    · simp [setCell, rowFind, h, ih]

/-- Writing a cell leaves every other column's lookup unchanged. -/
theorem rowFind_setCell_ne : ∀ (row : Row) (k k2 : Str) (v : Cell), k2 ≠ k →
    rowFind (setCell row k v) k2 = rowFind row k2 := by
  intro row k k2 v hne
  induction row with
  | nil => simp [setCell, rowFind, hne, Ne.symm hne]
  | cons p rest ih =>
    by_cases h : p.1 = k
    · simp [setCell, rowFind, h, Ne.symm hne]
    · by_cases h2 : p.1 = k2
      · simp [setCell, rowFind, h, h2, hne]
      · simp [setCell, rowFind, h, h2, ih]

/-- Live-mode send on a row with at least one valid TO address always
opens an SMTP session, whatever the transport then does. -/
theorem send_live_invoked (env : Env) (row : Row) (outcome : ChannelOutcome)
    (hto : parse_email_list (rowGetD row colTo (some "".data)) ≠ []) :
    (send_personalized_email env row false outcome).2 = true := by
  have hne : (parse_email_list (rowGetD row colTo (some "".data))).isEmpty = false := by
    simpa [List.isEmpty_eq_false] using hto
  cases outcome <;> simp [send_personalized_email, hne]

/-! ## Claims -/

/-- C1: for every row whose `status` field is non-empty after trimming at
load time, the campaign driver never invokes the Delivery Channel for
that row, and the whole row — in particular its `status` and
`sentTimestamp` cells — is exactly the same in the persisted table as it
was at load time. -/
theorem claim1_loaded_status_row_untouched
    (env : Env) (maxPerRun : Nat) (testMode : Bool) (oracle : Nat → ChannelOutcome)
    (rows : List Row) (i : Nat) (row : Row) (s : Str)
    (hget : rows.get? i = some row)
    (hst : rowGetD row colStatus (some "".data) = some s)
    (hne : stripStr s ≠ []) :
    (runCampaign env maxPerRun testMode oracle rows).rows.get? i = some row ∧
    i ∉ (runCampaign env maxPerRun testMode oracle rows).calls := by
  have hs : alreadySent row = true := by
    simp [alreadySent, hst, cellStr, isna, List.isEmpty_eq_false, hne]
  have h := runAux_preserves_skipped env maxPerRun testMode oracle rows 0 0 0 0 i row hget hs
  simpa [runCampaign] using h

/-- Witness for C1: a concrete already-sent row is untouched by a run. -/
theorem claim1_witness :
    ([rowDone].get? 0 = some rowDone ∧
     rowGetD rowDone colStatus (some "".data) = some "Sent successfully".data ∧
     stripStr "Sent successfully".data ≠ []) ∧
    ((runCampaign envW 100 false oracleOk [rowDone]).rows.get? 0 = some rowDone ∧
     0 ∉ (runCampaign envW 100 false oracleOk [rowDone]).calls) :=
  ⟨by decide,
   claim1_loaded_status_row_untouched envW 100 false oracleOk [rowDone] 0 rowDone
     "Sent successfully".data (by decide) (by decide) (by decide)⟩

/-- C2: a single run opens at most `maxPerRun` SMTP sessions, for every
table, clock, transport behaviour and mode. -/
theorem claim2_calls_le_cap (env : Env) (maxPerRun : Nat) (testMode : Bool)
    (oracle : Nat → ChannelOutcome) (rows : List Row) :
    (runCampaign env maxPerRun testMode oracle rows).calls.length ≤ maxPerRun := by
  have h := runAux_calls_length env maxPerRun testMode oracle rows 0 0 0 0
  simpa [runCampaign] using h

/-- C3, counterexample to the unrestricted claim: in test mode a row is
processed with `success = true` and counted among the successful emails,
yet its `sentTimestamp` cell is still empty after the run. -/
theorem claim3_counterexample :
    (runCampaign envW 100 true oracleOk [rowPendingA]).succ = 1 ∧
    (runCampaign envW 100 true oracleOk [rowPendingA]).rows.get? 0 =
      some [(colTo, some "a@x.com".data), (colStatus, some "Test mode - not sent".data),
            (colTimestamp, some "".data)] ∧
    rowFind [(colTo, some "a@x.com".data), (colStatus, some "Test mode - not sent".data),
             (colTimestamp, some "".data)] colTimestamp = some (some "".data) := by
  decide

/-- C3 (amended to live mode): for every row processed by a live-mode
run step, a successful send writes the non-empty sent indicator
`"Sent successfully"` into `status` and the non-empty wall-clock
timestamp into `sentTimestamp`; a failed send writes a non-empty status
and leaves the `sentTimestamp` cell exactly as it was. -/
theorem claim3_live_status_timestamp (env : Env) (row : Row) (outcome : ChannelOutcome)
    (hts : env.timestampStr ≠ []) :
    rowFind (applyResult row (send_personalized_email env row false outcome).1) colStatus
      = some (some (send_personalized_email env row false outcome).1.status) ∧
    ((send_personalized_email env row false outcome).1.success = true →
      (send_personalized_email env row false outcome).1.status = "Sent successfully".data ∧
      rowFind (applyResult row (send_personalized_email env row false outcome).1) colTimestamp
        = some (some env.timestampStr)) ∧
    ((send_personalized_email env row false outcome).1.success = false →
      (send_personalized_email env row false outcome).1.status ≠ [] ∧
      rowFind (applyResult row (send_personalized_email env row false outcome).1) colTimestamp
        = rowFind row colTimestamp) := by
  have hcol : colTimestamp ≠ colStatus := by decide
  have hcol2 : colStatus ≠ colTimestamp := by decide
  have hts' : env.timestampStr.isEmpty = false := by
    simpa [List.isEmpty_eq_false] using hts
  by_cases hto : (parse_email_list (rowGetD row colTo (some "".data))).isEmpty
  · -- no valid TO address: a plain failure with empty timestamp
    simp [send_personalized_email, hto, applyResult, rowFind_setCell_self,
      rowFind_setCell_ne _ _ _ _ hcol]
  · cases outcome with
    | ok =>
      simp [send_personalized_email, hto, applyResult, hts',
        rowFind_setCell_self, rowFind_setCell_ne _ _ _ _ hcol2, rowFind_setCell_ne _ _ _ _ hcol]
    | err m =>
      simp [send_personalized_email, hto, applyResult,
        rowFind_setCell_self, rowFind_setCell_ne _ _ _ _ hcol]

/-- Witness for the amended C3, at a concrete successful live send. -/
theorem claim3_witness :
    envW.timestampStr ≠ [] ∧
    rowFind (applyResult rowPendingA
        (send_personalized_email envW rowPendingA false ChannelOutcome.ok).1) colTimestamp
      = some (some envW.timestampStr) :=
  ⟨by decide,
   ((claim3_live_status_timestamp envW rowPendingA ChannelOutcome.ok (by decide)).2.1
     (by decide)).2⟩

/-- C4: with `maxPerRun = 1` and two rows pending at load time (the
first with a valid recipient), a live run invokes the Delivery Channel
exactly once — for row 0 — and the second row is persisted completely
untouched, every column included. -/
theorem claim4_cap_halts_iteration (env : Env) (oracle : Nat → ChannelOutcome) (r1 r2 : Row)
    (h1 : alreadySent r1 = false) (h2 : alreadySent r2 = false)
    (hto : parse_email_list (rowGetD r1 colTo (some "".data)) ≠ []) :
    (runCampaign env 1 false oracle [r1, r2]).calls = [0] ∧
    (runCampaign env 1 false oracle [r1, r2]).rows.get? 1 = some r2 := by
  have hinv := send_live_invoked env r1 (oracle 0) hto
  rw [runCampaign, runAux_cons_send env 1 false oracle r1 [r2] 0 0 0 0 h1 (by omega)]
  dsimp only [sendStep]
  rw [runAux_cons_break env 1 false oracle r2 [] (0 + 1) (0 + 1)
    (bump (send_personalized_email env r1 false (oracle 0)).1.success 0)
    (bump (!(send_personalized_email env r1 false (oracle 0)).1.success) 0)
    h2 (by omega)]
  simp [hinv]

/-- Witness for C4 at two concrete pending rows. -/
theorem claim4_witness :
    (alreadySent rowPendingA = false ∧ alreadySent rowPendingB = false ∧
     parse_email_list (rowGetD rowPendingA colTo (some "".data)) ≠ []) ∧
    ((runCampaign envW 1 false oracleOk [rowPendingA, rowPendingB]).calls = [0] ∧
     (runCampaign envW 1 false oracleOk [rowPendingA, rowPendingB]).rows.get? 1
       = some rowPendingB) :=
  ⟨by decide,
   claim4_cap_halts_iteration envW oracleOk rowPendingA rowPendingB
     (by decide) (by decide) (by decide)⟩

/-- C5: a pending row whose `to` field yields no valid address is
processed without ever opening an SMTP session: the loop writes the
failure reason `"No valid TO email addresses"` into its status cell,
counts it as processed (cap consumed) and failed, and its index is
absent from the Delivery Channel invocations. -/
theorem claim5_no_valid_to (env : Env) (mpr : Nat) (tm : Bool) (oracle : Nat → ChannelOutcome)
    (row : Row) (rest : List Row) (idx sent succ fail : Nat)
    (hp : alreadySent row = false) (hc : sent < mpr)
    (hto : parse_email_list (rowGetD row colTo (some "".data)) = []) :
    runAux env mpr tm oracle (row :: rest) idx sent succ fail =
      ⟨setCell row colStatus (some "No valid TO email addresses".data) ::
         (runAux env mpr tm oracle rest (idx + 1) (sent + 1) succ (fail + 1)).rows,
       (runAux env mpr tm oracle rest (idx + 1) (sent + 1) succ (fail + 1)).sent,
       (runAux env mpr tm oracle rest (idx + 1) (sent + 1) succ (fail + 1)).succ,
       (runAux env mpr tm oracle rest (idx + 1) (sent + 1) succ (fail + 1)).fail,
       (runAux env mpr tm oracle rest (idx + 1) (sent + 1) succ (fail + 1)).calls⟩ ∧
    idx ∉ (runAux env mpr tm oracle (row :: rest) idx sent succ fail).calls := by
  have hres : send_personalized_email env row tm (oracle idx) =
      (⟨false, "No valid TO email addresses".data, "".data⟩, false) := by
    simp [send_personalized_email, hto]
  rw [runAux_cons_send env mpr tm oracle row rest idx sent succ fail hp hc]
  dsimp only [sendStep]
  rw [hres]
  refine ⟨by simp [applyResult, bump], ?_⟩
  intro hmem
  simp only [Bool.false_eq_true, if_false, List.mem_cons] at hmem
  have := runAux_calls_lb env mpr tm oracle rest (idx + 1) (sent + 1)
    (bump false succ) (bump true fail) idx hmem
  omega

/-- Witness for C5 at a concrete recipient-less pending row. -/
theorem claim5_witness :
    (alreadySent rowNoTo = false ∧ 0 < 100 ∧
     parse_email_list (rowGetD rowNoTo colTo (some "".data)) = []) ∧
    (runAux envW 100 false oracleOk [rowNoTo] 0 0 0 0 =
      ⟨setCell rowNoTo colStatus (some "No valid TO email addresses".data) ::
         (runAux envW 100 false oracleOk [] (0 + 1) (0 + 1) 0 (0 + 1)).rows,
       (runAux envW 100 false oracleOk [] (0 + 1) (0 + 1) 0 (0 + 1)).sent,
       (runAux envW 100 false oracleOk [] (0 + 1) (0 + 1) 0 (0 + 1)).succ,
       (runAux envW 100 false oracleOk [] (0 + 1) (0 + 1) 0 (0 + 1)).fail,
       (runAux envW 100 false oracleOk [] (0 + 1) (0 + 1) 0 (0 + 1)).calls⟩ ∧
     0 ∉ (runAux envW 100 false oracleOk [rowNoTo] 0 0 0 0).calls) :=
  ⟨by decide,
   claim5_no_valid_to envW 100 false oracleOk rowNoTo [] 0 0 0 0
     (by decide) (by decide) (by decide)⟩

/-- C10: in test mode, a pending row with a valid recipient is reported
as a success with status text `"Test mode - not sent"` and no timestamp:
the loop writes that status, leaves the `sentTimestamp` cell exactly as
it was, counts the row among the successful emails, and opens no SMTP
session. -/
theorem claim10_test_mode (env : Env) (mpr : Nat) (oracle : Nat → ChannelOutcome)
    (row : Row) (rest : List Row) (idx sent succ fail : Nat)
    (hp : alreadySent row = false) (hc : sent < mpr)
    (hto : parse_email_list (rowGetD row colTo (some "".data)) ≠ []) :
    runAux env mpr true oracle (row :: rest) idx sent succ fail =
      ⟨setCell row colStatus (some "Test mode - not sent".data) ::
         (runAux env mpr true oracle rest (idx + 1) (sent + 1) (succ + 1) fail).rows,
       (runAux env mpr true oracle rest (idx + 1) (sent + 1) (succ + 1) fail).sent,
       (runAux env mpr true oracle rest (idx + 1) (sent + 1) (succ + 1) fail).succ,
       (runAux env mpr true oracle rest (idx + 1) (sent + 1) (succ + 1) fail).fail,
       (runAux env mpr true oracle rest (idx + 1) (sent + 1) (succ + 1) fail).calls⟩ ∧
    rowFind (setCell row colStatus (some "Test mode - not sent".data)) colTimestamp
      = rowFind row colTimestamp ∧
    idx ∉ (runAux env mpr true oracle (row :: rest) idx sent succ fail).calls := by
  have hne : (parse_email_list (rowGetD row colTo (some "".data))).isEmpty = false := by
    simpa [List.isEmpty_eq_false] using hto
  have hres : send_personalized_email env row true (oracle idx) =
      (⟨true, "Test mode - not sent".data, "".data⟩, false) := by
    simp [send_personalized_email, hne]
  have hcol : colTimestamp ≠ colStatus := by decide
  rw [runAux_cons_send env mpr true oracle row rest idx sent succ fail hp hc]
  dsimp only [sendStep]
  rw [hres]
  refine ⟨by simp [applyResult, bump], rowFind_setCell_ne _ _ _ _ hcol, ?_⟩
  intro hmem
  simp only [Bool.false_eq_true, if_false, List.mem_cons] at hmem
  have := runAux_calls_lb env mpr true oracle rest (idx + 1) (sent + 1)
    (bump true succ) (bump false fail) idx hmem
  omega

/-- Witness for C10 at a concrete pending row in a test-mode run. -/
theorem claim10_witness :
    (alreadySent rowPendingA = false ∧ 0 < 100 ∧
     parse_email_list (rowGetD rowPendingA colTo (some "".data)) ≠ []) ∧
    (rowFind (setCell rowPendingA colStatus (some "Test mode - not sent".data)) colTimestamp
       = rowFind rowPendingA colTimestamp ∧
     0 ∉ (runAux envW 100 true oracleOk [rowPendingA] 0 0 0 0).calls) :=
  ⟨by decide,
   ⟨(claim10_test_mode envW 100 oracleOk rowPendingA [] 0 0 0 0
       (by decide) (by decide) (by decide)).2.1,
    (claim10_test_mode envW 100 oracleOk rowPendingA [] 0 0 0 0
       (by decide) (by decide) (by decide)).2.2⟩⟩

/-- C6, exhibit of the code defect: with a `NaN` `First Name` cell the
built-in NAME placeholder renders as the literal token `"nan"` (the
stringified `NaN`), while the generic column path of the very same
function renders the same absent cell as the empty string. -/
theorem claim6_nan_rendered_for_builtin :
    personalize_content envW "\x7b\x7bNAME\x7d\x7d \x7b\x7bFIRST_NAME\x7d\x7d".data
      [(colName, none)] = "nan ".data := by
  decide

/-- C9: template rendering is a pure function of the template, the row
and the current date — two renders under clocks that agree on the
formatted date give byte-identical output, whatever else differs. -/
theorem claim9_render_deterministic (env1 env2 : Env) (template : Str) (row : Row)
    (hdate : env1.dateStr = env2.dateStr) :
    personalize_content env1 template row = personalize_content env2 template row := by
  unfold personalize_content standardReplacements
  rw [hdate]

/-- Witness for C9 at a concrete template and row, with clocks differing
in their timestamp component. -/
theorem claim9_witness :
    envW.dateStr = (Env.mk envW.dateStr "other".data).dateStr ∧
    personalize_content envW "Hi \x7b\x7bNAME\x7d\x7d, today is \x7b\x7bDATE\x7d\x7d".data
        [(colName, some "Bob".data)]
      = personalize_content (Env.mk envW.dateStr "other".data)
        "Hi \x7b\x7bNAME\x7d\x7d, today is \x7b\x7bDATE\x7d\x7d".data
        [(colName, some "Bob".data)] :=
  ⟨rfl,
   claim9_render_deterministic envW (Env.mk envW.dateStr "other".data)
     "Hi \x7b\x7bNAME\x7d\x7d, today is \x7b\x7bDATE\x7d\x7d".data
     [(colName, some "Bob".data)] rfl⟩

/-- C7, counterexample: with a two-address `to` cell, the EMAIL
placeholder renders as the whole raw cell value, not as the first
validated address of the parsed list. -/
theorem claim7_counterexample :
    personalize_content envW "\x7b\x7bEMAIL\x7d\x7d".data
      [(colTo, some "a@x.com,b@y.com".data)] = "a@x.com,b@y.com".data ∧
    (parse_email_list (some "a@x.com,b@y.com".data)).head? = some "a@x.com".data ∧
    "a@x.com,b@y.com".data ≠ "a@x.com".data := by
  decide

/-- Replacement scanning never changes a string that lacks the first
character of the pattern. -/
theorem replaceFuel_no_first_char (old new : Str) (c0 : Char) (hold : old.head? = some c0) :
    ∀ (fuel : Nat) (s : Str), (∀ c ∈ s, c ≠ c0) → replaceFuel old new fuel s = s := by
  obtain ⟨o, ot, rfl⟩ : ∃ o ot, old = o :: ot := by
    cases old with
    | nil => simp at hold
    | cons o ot => exact ⟨o, ot, rfl⟩
  have ho : o = c0 := by simpa using hold
  subst ho
  intro fuel
  induction fuel with
  | zero => intro s _; rfl
  | succ n ih =>
    intro s hs
    cases s with
    | nil => rfl
    | cons c rest =>
      have hc : ¬ (o = c) := fun hEq => hs c (List.mem_cons_self c rest) hEq.symm
      have hd : decide (o = c) = false := decide_eq_false hc
      rw [replaceFuel]
      rw [show startsWithStr (o :: ot) (c :: rest) = false by simp [startsWithStr, hd]]
      simp only [Bool.false_eq_true, if_false]
      rw [ih rest (fun x hx => hs x (List.mem_cons_of_mem c hx))]

/-- A generated placeholder key always begins with an opening brace. -/
theorem mkPlaceholder_head (k : Str) : (mkPlaceholder k).head? = some '\x7b' := rfl

/-- Folding replacements whose keys are generated placeholders over a
brace-free string changes nothing. -/
theorem foldl_replace_braceless (s : Str) (hs : ∀ c ∈ s, c ≠ '\x7b') :
    ∀ (ex : List (Str × Str)), (∀ p ∈ ex, ∃ k, p.1 = mkPlaceholder k) →
      ex.foldl (fun content p => replaceStr content p.1 p.2) s = s := by
  intro ex
  induction ex with
  | nil => intro _; rfl
  | cons p rest ih =>
    intro hmem
    obtain ⟨k, hk⟩ := hmem p (List.mem_cons_self p rest)
    have hstep : replaceStr s p.1 p.2 = s := by
      apply replaceFuel_no_first_char p.1 p.2 '\x7b' _ s.length s hs
      rw [hk]
      exact mkPlaceholder_head k
    simp only [List.foldl_cons, hstep]
    exact ih (fun q hq => hmem q (List.mem_cons_of_mem p hq))

/-- The extra-column loop only appends entries whose keys are generated
placeholders. -/
theorem addExtras_decomp : ∀ (r : Row) (acc : List (Str × Str)),
    ∃ ex, addExtras r acc = acc ++ ex ∧ ∀ p ∈ ex, ∃ k, p.1 = mkPlaceholder k := by
  intro r
  induction r with
  | nil =>
    intro acc
    exact ⟨[], by simp [addExtras], by simp⟩
  | cons kv rest ih =>
    intro acc
    obtain ⟨k, v⟩ := kv
    by_cases h : acc.any (fun p => p.1 = mkPlaceholder k)
    · obtain ⟨ex, hex, hkeys⟩ := ih acc
      exact ⟨ex, by simpa [addExtras, h] using hex, hkeys⟩
    · obtain ⟨ex, hex, hkeys⟩ := ih (acc ++ [(mkPlaceholder k, cellValueOrEmpty v)])
      refine ⟨(mkPlaceholder k, cellValueOrEmpty v) :: ex, ?_, ?_⟩
      · rw [addExtras]
        simp only [h, Bool.false_eq_true, if_false]
        rw [hex, List.append_assoc]
        rfl
      · intro p hp
        rcases List.mem_cons.mp hp with rfl | hp'
        · exact ⟨k, rfl⟩
        · exact hkeys p hp'

/-- C7 (amended): the EMAIL placeholder resolves to the raw stringified
`to` cell of the row — the full comma-separated field value — whenever
that value contains no brace (so no later replacement can rewrite it),
rather than to the first validated address. -/
theorem claim7_email_placeholder_raw (env : Env) (row : Row) (s : Str)
    (hto : rowFind row colTo = some (some s))
    (hs : ∀ c ∈ s, c ≠ '\x7b') :
    personalize_content env "\x7b\x7bEMAIL\x7d\x7d".data row = s := by
  unfold personalize_content
  obtain ⟨ex, hex, hkeys⟩ := addExtras_decomp row (standardReplacements env row)
  rw [hex, List.foldl_append]
  have h1 : (standardReplacements env row).foldl (fun content p => replaceStr content p.1 p.2)
      "\x7b\x7bEMAIL\x7d\x7d".data = getRawStr row colTo ++ [] := rfl
  have h2 : getRawStr row colTo = s := by simp [getRawStr, hto, cellStr]
  rw [h1, List.append_nil, h2]
  exact foldl_replace_braceless s hs ex hkeys

/-- Witness for the amended C7 at a concrete single-address row. -/
theorem claim7_witness :
    (rowFind [(colTo, some "a@x.com".data)] colTo = some (some "a@x.com".data) ∧
     ∀ c ∈ "a@x.com".data, c ≠ '\x7b') ∧
    personalize_content envW "\x7b\x7bEMAIL\x7d\x7d".data [(colTo, some "a@x.com".data)]
      = "a@x.com".data :=
  ⟨⟨by decide, by decide⟩,
   claim7_email_placeholder_raw envW [(colTo, some "a@x.com".data)] "a@x.com".data
     (by decide) (by decide)⟩

/-- Scanning `takeWhile` past a block of satisfying characters. -/
theorem takeWhile_append_all (f : Char → Bool) :
    ∀ (l r : Str), (∀ c ∈ l, f c = true) → (l ++ r).takeWhile f = l ++ r.takeWhile f := by
  intro l
  induction l with
  | nil => intro r _; simp
  | cons c t ih =>
    intro r h
    have hc : f c = true := h c (List.mem_cons_self c t)
    simp only [List.cons_append, List.takeWhile_cons, hc, if_true]
    rw [ih r (fun x hx => h x (List.mem_cons_of_mem c hx))]

/-- Scanning `dropWhile` past a block of satisfying characters. -/
theorem dropWhile_append_all (f : Char → Bool) :
    ∀ (l r : Str), (∀ c ∈ l, f c = true) → (l ++ r).dropWhile f = r.dropWhile f := by
  intro l
  induction l with
  | nil => intro r _; simp
  | cons c t ih =>
    intro r h
    have hc : f c = true := h c (List.mem_cons_self c t)
    simp only [List.cons_append, List.dropWhile_cons, hc, if_true]
    exact ih r (fun x hx => h x (List.mem_cons_of_mem c hx))

/-- The head surviving a `dropWhile` fails the predicate. -/
theorem dropWhile_head_false (f : Char → Bool) :
    ∀ (l : Str) (c : Char) (rest : Str), l.dropWhile f = c :: rest → f c = false := by
  intro l
  induction l with
  | nil =>
    intro c rest h
    simp at h
  | cons a t ih =>
    intro c rest h
    by_cases hf : f a
    · rw [List.dropWhile_cons, if_pos hf] at h
      exact ih c rest h
    · rw [List.dropWhile_cons, if_neg hf] at h
      obtain ⟨rfl, -⟩ := List.cons.inj h
      exact Bool.eq_false_iff.mpr hf

/-- A string whose strip is empty consists of whitespace only. -/
theorem stripStr_nil_all_space (s : Str) (h : stripStr s = []) :
    ∀ c ∈ s, c.isWhitespace = true := by
  have h1 : (s.dropWhile Char.isWhitespace).reverse.dropWhile Char.isWhitespace = [] := by
    simpa [stripStr, List.reverse_eq_nil_iff] using h
  have h2 : ∀ c ∈ (s.dropWhile Char.isWhitespace).reverse, c.isWhitespace = true :=
    List.dropWhile_eq_nil_iff.mp h1
  have h3 : ∀ c ∈ s.dropWhile Char.isWhitespace, c.isWhitespace = true := by
    intro c hc
    exact h2 c (List.mem_reverse.mpr hc)
  intro c hc
  rw [← List.takeWhile_append_dropWhile (p := Char.isWhitespace) (l := s)] at hc
  rcases List.mem_append.mp hc with hc' | hc'
  · exact List.mem_takeWhile_imp hc'
  · exact h3 c hc'

/-- Splitting a comma-free (here: whitespace-only) string gives the
single piece back. -/
theorem splitComma_all_space :
    ∀ (s : Str), (∀ c ∈ s, c.isWhitespace = true) → splitComma s = [s] := by
  intro s
  induction s with
  | nil => intro _; rfl
  | cons c rest ih =>
    intro h
    have hc : c.isWhitespace = true := h c (List.mem_cons_self c rest)
    have hcomma : ¬ (c = ',') := by
      rintro rfl
      exact absurd hc (by decide)
    rw [splitComma]
    simp only [hcomma, if_false]
    rw [ih (fun x hx => h x (List.mem_cons_of_mem c hx))]

/-- The empty entry never validates. -/
theorem validate_email_nil : validate_email [] = false := by decide

/-- The valid side of the parse loop is exactly the validating filter of
its input entries. -/
theorem parseLoop_fst : ∀ (l : List Str), (parseLoop l).1 = l.filter validate_email := by
  intro l
  induction l with
  | nil => rfl
  | cons e rest ih =>
    by_cases h1 : e.isEmpty
    · obtain rfl : e = [] := List.isEmpty_iff.mp h1
      simp [parseLoop, List.filter, validate_email_nil, ih]
    · by_cases h2 : validate_email e
      · simp [parseLoop, List.filter, h1, h2, ih]
      · simp [parseLoop, List.filter, h1, h2, ih]

/-- The source's executable matcher accepts exactly the declarative
e-mail shape of the specification. -/
theorem emailMatch_iff_shape (s : Str) : emailMatch s = true ↔ specEmailShape s := by
  constructor
  · intro h
    unfold emailMatch at h
    split at h
    · rename_i a d heq
      simp only [Bool.and_eq_true, decide_eq_true_eq, Bool.not_eq_true',
        List.isEmpty_eq_false] at h
      obtain ⟨⟨ha, hl⟩, hdm⟩ := h
      subst ha
      unfold domainMatch at hdm
      split at hdm
      · rename_i b pR heq2
        simp only [Bool.and_eq_true, decide_eq_true_eq, Bool.not_eq_true',
          List.isEmpty_eq_false, List.all_eq_true] at hdm
        obtain ⟨⟨⟨hb, hlen⟩, hpne⟩, hall⟩ := hdm
        subst hb
        have hr : d.reverse = d.reverse.takeWhile Char.isAlpha ++ ('.' :: pR) := by
          conv_lhs => rw [← List.takeWhile_append_dropWhile (p := Char.isAlpha) (l := d.reverse)]
          rw [heq2]
        have hd : d = pR.reverse ++ '.' :: (d.reverse.takeWhile Char.isAlpha).reverse := by
          have h' := congrArg List.reverse hr
          simpa [List.reverse_append] using h'
        have hls : s = s.takeWhile isLocalChar ++ ('@' :: d) := by
          conv_lhs => rw [← List.takeWhile_append_dropWhile (p := isLocalChar) (l := s)]
          rw [heq]
        refine ⟨s.takeWhile isLocalChar, pR.reverse,
          (d.reverse.takeWhile Char.isAlpha).reverse, ?_, hl, ?_, ?_, ?_, ?_, ?_⟩
        · rw [← hd]
          exact hls
        · intro c hc
          exact List.mem_takeWhile_imp hc
        · simpa [List.reverse_eq_nil_iff] using hpne
        · intro c hc
          exact hall c (List.mem_reverse.mp hc)
        · simpa [List.length_reverse] using hlen
        · intro c hc
          exact List.mem_takeWhile_imp (List.mem_reverse.mp hc)
      · exact absurd hdm (by simp)
    · exact absurd h (by simp)
  · rintro ⟨l, p, t, rfl, hl, hlc, hp, hpc, ht2, htc⟩
    have hat : isLocalChar '@' = false := by decide
    have h1 : (l ++ '@' :: (p ++ '.' :: t)).dropWhile isLocalChar = '@' :: (p ++ '.' :: t) := by
      rw [dropWhile_append_all isLocalChar l _ hlc, List.dropWhile_cons, hat]
      simp
    have h2 : (l ++ '@' :: (p ++ '.' :: t)).takeWhile isLocalChar = l := by
      rw [takeWhile_append_all isLocalChar l _ hlc, List.takeWhile_cons, hat]
      simp
    have hta : ∀ c ∈ t.reverse, Char.isAlpha c = true := fun c hc => htc c (List.mem_reverse.mp hc)
    have hdot : Char.isAlpha '.' = false := by decide
    have hrev : (p ++ '.' :: t).reverse = t.reverse ++ '.' :: p.reverse := by
      simp [List.reverse_append, List.reverse_cons, List.append_assoc]
    have hdw : (t.reverse ++ '.' :: p.reverse).dropWhile Char.isAlpha = '.' :: p.reverse := by
      rw [dropWhile_append_all Char.isAlpha t.reverse _ hta, List.dropWhile_cons, hdot]
      simp
    have htw : (t.reverse ++ '.' :: p.reverse).takeWhile Char.isAlpha = t.reverse := by
      rw [takeWhile_append_all Char.isAlpha t.reverse _ hta, List.takeWhile_cons, hdot]
      simp
    have hdm : domainMatch (p ++ '.' :: t) = true := by
      unfold domainMatch
      rw [hrev, hdw, htw]
      have f1 : 2 ≤ t.reverse.length := by simpa [List.length_reverse] using ht2
      have f2 : p.reverse.isEmpty = false := by
        rw [List.isEmpty_eq_false]
        simpa [List.reverse_eq_nil_iff] using hp
      have f3 : p.reverse.all isDomainChar = true := by
        rw [List.all_eq_true]
        intro c hc
        exact hpc c (List.mem_reverse.mp hc)
      simp [f1, f2, f3, ht2]
    unfold emailMatch
    rw [h1, h2]
    have f4 : l.isEmpty = false := by
      rw [List.isEmpty_eq_false]; exact hl
    simp [f4, hdm]

/-- C8: parsing a comma-separated address cell returns exactly the
trimmed entries that match the RFC-5322-light pattern, in their original
order — non-matching entries are dropped without failing the operation —
a `NaN` or blank input yields the empty list, and an entry matches the
executable pattern exactly when its trimmed form has the declarative
local-part/@/domain/dot/TLD shape of the specification. -/
theorem claim8_parse_filters_valid :
    (parse_email_list none = [] ∧
     ∀ s : Str, stripStr s = [] → parse_email_list (some s) = []) ∧
    (∀ s : Str, parse_email_list (some s) =
      ((splitComma s).map stripStr).filter validate_email) ∧
    (∀ e : Str, validate_email e = true ↔ specEmailShape (stripStr e)) := by
  have hfilter : ∀ s : Str, parse_email_list (some s) =
      ((splitComma s).map stripStr).filter validate_email := by
    intro s
    by_cases h : stripStr s = []
    · have hsp : splitComma s = [s] := splitComma_all_space s (stripStr_nil_all_space s h)
      simp [parse_email_list, h, hsp, List.filter, validate_email_nil]
    · simp [parse_email_list, h, parseLoop_fst]
  refine ⟨⟨rfl, fun s h => by simp [parse_email_list, h]⟩, hfilter, ?_⟩
  intro e
  exact emailMatch_iff_shape (stripStr e)

/-- Witness for C8: a blank input parses to nothing, a mixed
valid/invalid input is filtered, and a concrete address has the
declarative shape. -/
theorem claim8_witness :
    (stripStr "  ".data = [] ∧ parse_email_list (some "  ".data) = []) ∧
    parse_email_list (some "jane@x.com,bad-email".data) =
      ((splitComma "jane@x.com,bad-email".data).map stripStr).filter validate_email ∧
    (validate_email "a@x.com".data = true ↔ specEmailShape (stripStr "a@x.com".data)) :=
  ⟨⟨by decide, claim8_parse_filters_valid.1.2 "  ".data (by decide)⟩,
   claim8_parse_filters_valid.2.1 "jane@x.com,bad-email".data,
   claim8_parse_filters_valid.2.2 "a@x.com".data⟩

end MailGun
